import Mathlib

set_option maxRecDepth 40000

/-!
Shallow embedding of the wordlist-generation core of
`src/password_tool.py` (class `WordlistGenerator` and the generate branch
of `CLIInterface.run`), together with theorems settling the frozen claims
about it.

Modelling conventions:
* Python strings are Lean `String`; `len` is `String.length` (both count
  code points).
* A `PersonalProfile` is the list of the six field values in field order
  (`first`, `last`, `nick`, `birth`, `pet`, `company`); a missing or empty
  field is `""` (both `None` and `""` are falsy in the Python truth tests
  used by the source).
* A Python `set` in the source is modelled as the underlying insertion
  list; the observable iteration order of `list(some_set)` depends on the
  interpreter hash seed, so every place where the source linearizes a set
  is parameterized by a function `ord` with the single guarantee
  `PySetOrder ord`: `ord xs` is a permutation of the deduplicated list
  `xs.dedup`.  Intermediate sets whose order is provably unobservable
  (they are immediately merged into another set) are linearized
  canonically with `List.dedup`.
* The output file is modelled as its list of lines (each written line is
  one string followed by a newline, so byte equality of files is equality
  of the line lists).
-/

namespace PasswordTool

/-- `WordlistGenerator.L33T_MAP`: fixed table from a lowercase letter to its
list of visually similar replacement characters. -/
def l33tMap : Char → Option (List Char)
  | 'a' => some ['4', '@']
  | 'e' => some ['3']
  | 'i' => some ['1', '!']
  | 'o' => some ['0']
  | 's' => some ['5', '$']
  | 't' => some ['7', '+']
  | 'b' => some ['8', '6']
  | 'g' => some ['9']
  | 'l' => some ['1']
  | 'z' => some ['2']
  | _ => none

/-- `WordlistGenerator.COMMON_SUFFIXES`. -/
def COMMON_SUFFIXES : List String :=
  ["", "!", "@", "#", "$", "%", "^", "&", "*", "?", "123", "1234",
   "00", "01", "007", "1", "2", "3", "4", "5", "69", "88", "99", "000"]

/-- `WordlistGenerator.KEYBOARD_WALKS` (also reused by the source as the
common-password list). -/
def KEYBOARD_WALKS : List String :=
  ["qwerty", "asdfgh", "zxcvbn", "123456", "1qaz2wsx", "1q2w3e4r",
   "qazwsx", "password", "letmein", "admin", "welcome", "monkey"]

/-- Python `str.lower()` on the ASCII inputs used here. -/
def pyLower (s : String) : String := String.mk (s.data.map Char.toLower)

/-- Python `str.capitalize()`: first character uppercased, remainder
lowercased. -/
def pyCapitalize (s : String) : String :=
  match s.data with
  | [] => ""
  | c :: cs => String.mk (Char.toUpper c :: cs.map Char.toLower)

/-- Python `str.zfill(width)` for the sign-free inputs used here: pad on
the left with `0` up to `width`. -/
def pyZfill (width : Nat) (s : String) : String :=
  if width ≤ s.length then s
  else String.mk (List.replicate (width - s.length) '0' ++ s.data)

/-- The alternatives looked up for one position:
`L33T_MAP.get(char_list[pos].lower(), [char_list[pos]])`. -/
def leetChoices (c : Char) : List Char := (l33tMap c.toLower).getD [c]

/-- `leetable_positions`: indices whose lowercased character is a key of
the substitution table. -/
def leetablePositions (chars : List Char) : List Nat :=
  (chars.enum.filter (fun ic => (l33tMap ic.2.toLower).isSome)).map (fun ic => ic.1)

/-- Copy `char_list` and overwrite the chosen positions with the chosen
replacement characters (`new_word[idx] = char` over `zip(positions, combo)`).
All produced positions are in range, so the `getD`-style `List.set` never
falls outside the list. -/
def applyCombo (chars : List Char) (positions : List Nat) (combo : List Char) : List Char :=
  (positions.zip combo).foldl (fun acc pc => acc.set pc.1 pc.2) chars

/-- `WordlistGenerator._leet_transform(word, max_subs)`.  Returns the
transformation set as a canonically deduplicated list; the order of
`list(transformations)` is never observable downstream (the caller merges
the result into another set).  `positions` always lie in range of
`chars`, so the `getD` default is never used. -/
def leetList (word : String) (maxSubs : Int) : List String :=
  if maxSubs < 1 then [word]
  else
    let chars := word.data
    let lp := leetablePositions chars
    let kmax := (min maxSubs (lp.length : Int)).toNat
    (word :: (List.range' 1 kmax).flatMap (fun k =>
      (List.sublistsLen k lp).flatMap (fun positions =>
        ((positions.map (fun pos => leetChoices (chars.getD pos ' '))).sections).map
          (fun combo => String.mk (applyCombo chars positions combo))))).dedup

/-- The transformation result as a set. -/
def leetSet (word : String) (maxSubs : Int) : Finset String :=
  (leetList word maxSubs).toFinset

/-- The six concatenations added for one ordered pair of distinct
non-empty fields. -/
def sixCombos (a b : String) : List String :=
  [a ++ b, b ++ a, pyCapitalize a ++ b, a ++ pyCapitalize b,
   a ++ "." ++ b, a ++ "_" ++ b]

/-- The double loop `for i in range(len(keys)): for j in range(i+1, len(keys))`
of `_generate_base_words`. -/
def pairCombos (keys : List String) : List String :=
  (List.range keys.length).flatMap (fun i =>
    ((List.range keys.length).filter (fun j => i < j)).flatMap (fun j =>
      sixCombos (keys.getD i "") (keys.getD j "")))

/-- `WordlistGenerator._generate_base_words`, as the insertion sequence of
the Python set `words` (the returned `list(words)` is an arbitrary
linearization of its deduplication, supplied by a `PySetOrder` argument at
the use site). -/
def rawBaseWords (p : List String) : List String :=
  let keys := p.filter (fun v => v ≠ "")
  keys.flatMap (fun v => [pyLower v, pyCapitalize v]) ++
    (if 1 < keys.length then pairCombos keys else [])

/-- The 15 year strings `str(current_year - 10) .. str(current_year + 4)`. -/
def yearEntries (year : Int) : List String :=
  (List.range 15).map (fun i => toString (year - 10 + (i : Int)))

/-- The 100 zero-padded strings `str(i).zfill(2)` for `i` in `0..99`. -/
def twoDigitEntries : List String :=
  (List.range 100).map (fun i => pyZfill 2 (toString i))

/-- The fixed idiomatic numbers, stringified. -/
def idiomEntries : List String :=
  ([111, 123, 234, 345, 456, 567, 678, 789, 300, 999, 799, 100, 200] : List Nat).map
    (fun n => toString n)

/-- `WordlistGenerator._generate_number_variations`, as the insertion
sequence of the list `numbers` (the source returns `list(set(numbers))`). -/
def numbersRaw (year : Int) : List String :=
  yearEntries year ++ twoDigitEntries ++ idiomEntries

/-- A linearization of Python set iteration: `ord xs` is the list
`list(s)` for the set `s` built by inserting the elements of `xs` in
order.  The only guarantee CPython gives is that it enumerates each
distinct element exactly once, i.e. it is a permutation of `xs.dedup`. -/
def PySetOrder (ord : List String → List String) : Prop :=
  ∀ xs : List String, (ord xs).Perm xs.dedup

/-- The length filter `4 <= len(word) <= 64` applied before writing. -/
def lenOK (s : String) : Bool := decide (4 ≤ s.length ∧ s.length ≤ 64)

/-- The set `variants` together with its leet expansion: the union of the
transformations of `base_word.lower()` and `base_word.capitalize()`
(insertion sequence of the set `leet_variants`). -/
def leetVariantsList (maxLeet : Int) (b : String) : List String :=
  leetList (pyLower b) maxLeet ++ leetList (pyCapitalize b) maxLeet

/-- For one leet variant `w`: the bare word, the word with each numeric
string appended, and the word with each numeric string prepended
(insertion sequence of `all_combinations`). -/
def comboList (nums : List String) (w : String) : List String :=
  w :: (nums.map (fun n => w ++ n) ++ nums.map (fun n => n ++ w))

/-- Insertion sequence of the set `all_combinations` for one base word. -/
def allCombos (maxLeet : Int) (nums : List String) (b : String) : List String :=
  (leetVariantsList maxLeet b).flatMap (comboList nums)

/-- Insertion sequence of the set `final_words` for one base word: every
`all_combinations` entry followed by every common affix from
`COMMON_SUFFIXES`. -/
def blockRaw (maxLeet : Int) (nums : List String) (b : String) : List String :=
  (allCombos maxLeet nums b).flatMap (fun w => COMMON_SUFFIXES.map (fun suf => w ++ suf))

/-- The lines written for one base word: iterate `final_words` (a set, so
an `ord`-linearization of `blockRaw`) and keep the length-filtered words. -/
def lineBlock (ord : List String → List String) (maxLeet : Int) (nums : List String)
    (b : String) : List String :=
  (ord (blockRaw maxLeet nums b)).filter lenOK

/-- `WordlistGenerator.generate_wordlist` as the list of lines of the
written file: optional keyboard walks, then the per-base-word blocks in
`base_words` order, then optionally the same walk list again as the
common-password section. -/
def generateWordlist (ord : List String → List String) (p : List String) (maxLeet : Int)
    (includeCommon includeKeyboard : Bool) (year : Int) : List String :=
  (if includeKeyboard then KEYBOARD_WALKS else []) ++
    (ord (rawBaseWords p)).flatMap (lineBlock ord maxLeet (ord (numbersRaw year))) ++
    (if includeCommon then KEYBOARD_WALKS else [])

/-- The generate branch of `CLIInterface.run`: if no field is truthy it
prints the `InvalidProfile`-style error and exits before the generator is
even constructed (so before any file is opened); otherwise it runs the
generation and the file contents are the returned lines. -/
def cliRun (ord : List String → List String) (p : List String) (maxLeet : Int)
    (includeCommon includeKeyboard : Bool) (year : Int) : Except String (List String) :=
  if p.any (fun v => v ≠ "") then
    Except.ok (generateWordlist ord p maxLeet includeCommon includeKeyboard year)
  else
    Except.error "At least one user data field required for wordlist generation"

/-- A concrete valid set linearization: the element `t`, when present,
is enumerated first. -/
def moveFront (t : String) (xs : List String) : List String :=
  if t ∈ xs.dedup then t :: xs.dedup.erase t else xs.dedup

/-- The profile of the concrete scenario: `{first: "Jane", pet: "Rex"}`. -/
def pJane : List String := ["Jane", "", "", "", "Rex", ""]

/-- Claim C2 as stated: the written lines are a function of profile,
configuration and date alone, whatever set-iteration orders the two runs
happened to use. -/
def deterministicOutput : Prop :=
  ∀ (ord₁ ord₂ : List String → List String) (p : List String) (maxLeet : Int)
    (c kb : Bool) (y : Int), PySetOrder ord₁ → PySetOrder ord₂ →
    generateWordlist ord₁ p maxLeet c kb y = generateWordlist ord₂ p maxLeet c kb y

/-- Claim C8 as stated: the base words are handed to further processing in
lexicographically sorted order. -/
def baseWordsSorted : Prop :=
  ∀ (ord : List String → List String) (p : List String), PySetOrder ord →
    List.Sorted (· ≤ ·) (ord (rawBaseWords p))

end PasswordTool

namespace PasswordTool

lemma word_mem_leetList (w : String) (k : Int) : w ∈ leetList w k := by
  unfold leetList
  split
  · exact List.mem_singleton_self w
  · rw [List.mem_dedup]
    exact List.mem_cons_self _ _

lemma leetList_mono {w : String} {k₁ k₂ : Int} (h : k₁ ≤ k₂) :
    ∀ s ∈ leetList w k₁, s ∈ leetList w k₂ := by
  intro s hs
  by_cases h1 : k₁ < 1
  · rw [leetList, if_pos h1] at hs
    rcases List.mem_singleton.mp hs with rfl
    exact word_mem_leetList s k₂
  · have h2 : ¬ k₂ < 1 := by omega
    rw [leetList, if_neg h1, List.mem_dedup] at hs
    rw [leetList, if_neg h2, List.mem_dedup]
    rcases List.mem_cons.mp hs with rfl | hmem
    · exact List.mem_cons_self _ _
    · refine List.mem_cons_of_mem _ ?_
      rw [List.mem_flatMap] at hmem ⊢
      obtain ⟨k, hk, hbody⟩ := hmem
      refine ⟨k, ?_, hbody⟩
      rw [List.mem_range'_1] at hk ⊢
      refine ⟨hk.1, lt_of_lt_of_le hk.2 ?_⟩
      have : (min k₁ ((leetablePositions w.data).length : Int)).toNat ≤
          (min k₂ ((leetablePositions w.data).length : Int)).toNat :=
        Int.toNat_le_toNat (min_le_min h (le_refl _))
      omega

lemma foldl_set_length (l : List (Nat × Char)) (chars : List Char) :
    (l.foldl (fun acc pc => acc.set pc.1 pc.2) chars).length = chars.length := by
  induction l generalizing chars with
  | nil => rfl
  | cons hd tl ih => rw [List.foldl_cons, ih, List.length_set]

lemma mem_leetList_length {w s : String} {k : Int} (hs : s ∈ leetList w k) :
    s.length = w.length := by
  rw [leetList] at hs
  split at hs
  · rcases List.mem_singleton.mp hs with rfl; rfl
  · rw [List.mem_dedup] at hs
    rcases List.mem_cons.mp hs with rfl | hmem
    · rfl
    · rw [List.mem_flatMap] at hmem
      obtain ⟨k, _, hmem⟩ := hmem
      rw [List.mem_flatMap] at hmem
      obtain ⟨positions, _, hmem⟩ := hmem
      rw [List.mem_map] at hmem
      obtain ⟨combo, _, rfl⟩ := hmem
      show (applyCombo w.data positions combo).length = w.data.length
      exact foldl_set_length _ _

/-- C5: with substitution budget `0`, `_leet_transform` returns exactly the
singleton set holding the unmodified word. -/
theorem c5_leet_zero_singleton (w : String) :
    leetList w 0 = [w] ∧ leetSet w 0 = {w} := by
  constructor
  · rw [leetList, if_pos (by decide : (0 : Int) < 1)]
  · rw [leetSet, leetList, if_pos (by decide : (0 : Int) < 1)]
    rfl

/-- C6: for every word and every budget `k ≥ 1`, the transformation set at
budget `k` is a superset of the one at budget `k - 1`, so its size is
monotonically non-decreasing in the budget. -/
theorem c6_leet_monotone (w : String) (k : Int) (hk : 1 ≤ k) :
    leetSet w (k - 1) ⊆ leetSet w k ∧ (leetSet w (k - 1)).card ≤ (leetSet w k).card := by
  have hsub : leetSet w (k - 1) ⊆ leetSet w k := by
    intro s hs
    rw [leetSet, List.mem_toFinset] at hs ⊢
    exact leetList_mono (by omega) s hs
  exact ⟨hsub, Finset.card_le_card hsub⟩

theorem c6_leet_monotone_witness :
    (1 : Int) ≤ 1 ∧
      (leetSet "jane" (1 - 1) ⊆ leetSet "jane" 1 ∧
        (leetSet "jane" (1 - 1)).card ≤ (leetSet "jane" 1).card) :=
  ⟨by decide, c6_leet_monotone "jane" 1 (by decide)⟩

/-- C10: every string in the transformation result has exactly the length
of the input word (the substitution table replaces one character by one
character). -/
theorem c10_leet_length (w : String) (k : Int) (s : String) (hs : s ∈ leetSet w k) :
    s.length = w.length :=
  mem_leetList_length (List.mem_toFinset.mp hs)

theorem c10_leet_length_witness :
    "j4ne" ∈ leetSet "jane" 1 ∧ "j4ne".length = "jane".length :=
  ⟨by decide, c10_leet_length "jane" 1 "j4ne" (by decide)⟩

/-- C9 as stated is false: a budget above 3 is not clamped to 3 — on the
word `aeio` (four substitutable positions) budget 4 produces strictly more
variants than budget 3, e.g. the all-substituted `4310`. -/
theorem c9_clamp_counterexample : leetSet "aeio" 4 ≠ leetSet "aeio" 3 := by decide

/-- C9 amended: a budget below the valid range behaves exactly as the
clamped value 0 (no failure), while a budget above the range is not
clamped to 3 — it is capped only at the number of substitutable positions
of the word. -/
theorem c9_clamp_amended (w : String) (k : Int) :
    (k ≤ 0 → leetList w k = leetList w 0) ∧
      (((leetablePositions w.data).length : Int) ≤ k →
        leetList w k = leetList w ((leetablePositions w.data).length : Int)) := by
  constructor
  · intro hk
    rw [leetList, if_pos (by omega : k < 1), leetList, if_pos (by decide : (0 : Int) < 1)]
  · intro hn
    by_cases hk : k < 1
    · have h0 : (leetablePositions w.data).length = 0 := by omega
      rw [h0, leetList, if_pos hk, leetList, if_pos (by norm_num : ((0 : Nat) : Int) < 1)]
    · by_cases h0 : (leetablePositions w.data).length = 0
      · rw [h0, leetList, if_neg hk, leetList, if_pos (by norm_num : ((0 : Nat) : Int) < 1)]
        dsimp only
        rw [h0]
        have hmz : (k ⊓ ((0 : Nat) : Int)).toNat = 0 := by push_cast; omega
        rw [hmz]
        simp
      · have hn1 : ¬ (((leetablePositions w.data).length : Int) < 1) := by omega
        rw [leetList, if_neg hk, leetList, if_neg hn1]
        dsimp only
        rw [min_eq_right hn, min_self]

theorem c9_clamp_amended_witness :
    ((-1 : Int) ≤ 0 ∧ leetList "jane" (-1) = leetList "jane" 0) ∧
      ((((leetablePositions "aeio".data).length : Int) ≤ 7) ∧
        leetList "aeio" 7 = leetList "aeio" ((leetablePositions "aeio".data).length : Int)) :=
  ⟨⟨by decide, (c9_clamp_amended "jane" (-1)).1 (by decide)⟩,
    ⟨by decide, (c9_clamp_amended "aeio" 7).2 (by decide)⟩⟩

/-- C7: for every reference year, the numeric variation pool contains the
string of the year itself, contains every zero-padded two-digit entry
`00`..`99`, and those entries number exactly 100. -/
theorem c7_number_variations (y : Int) :
    toString y ∈ numbersRaw y ∧
      twoDigitEntries.toFinset ⊆ (numbersRaw y).toFinset ∧
      twoDigitEntries.toFinset.card = 100 := by
  refine ⟨?_, ?_, by decide⟩
  · rw [numbersRaw]
    refine List.mem_append_left _ (List.mem_append_left _ ?_)
    rw [yearEntries]
    refine List.mem_map.mpr ⟨10, ?_, ?_⟩
    · decide
    · refine congrArg toString ?_
      ring
  · intro s hs
    rw [List.mem_toFinset] at hs ⊢
    rw [numbersRaw]
    exact List.mem_append_left _ (List.mem_append_right _ hs)

end PasswordTool

namespace PasswordTool

lemma pySetOrder_dedup : PySetOrder List.dedup := fun _ => List.Perm.refl _

lemma pySetOrder_moveFront (t : String) : PySetOrder (moveFront t) := by
  intro xs
  by_cases h : t ∈ xs.dedup
  · rw [moveFront, if_pos h]
    exact (List.perm_cons_erase h).symm
  · rw [moveFront, if_neg h]

lemma mem_ord {ord : List String → List String} (h : PySetOrder ord) {a : String}
    {xs : List String} : a ∈ ord xs ↔ a ∈ xs := by
  rw [(h xs).mem_iff, List.mem_dedup]

lemma data_append (s t : String) : (s ++ t).data = s.data ++ t.data := by simp

lemma mem_blockRaw_iff {maxLeet : Int} {nums : List String} {b s : String} :
    s ∈ blockRaw maxLeet nums b ↔
      ∃ v ∈ leetVariantsList maxLeet b, ∃ suf ∈ COMMON_SUFFIXES,
        (s = v ++ suf ∨ ∃ n ∈ nums, s = (v ++ n) ++ suf ∨ s = (n ++ v) ++ suf) := by
  simp only [blockRaw, allCombos, comboList, List.mem_flatMap, List.mem_cons,
    List.mem_append, List.mem_map]
  constructor
  · rintro ⟨w, ⟨v, hv, hw⟩, suf, hsuf, hs⟩
    subst hs
    rcases hw with heq | ⟨n, hn, heq⟩ | ⟨n, hn, heq⟩
    · exact ⟨v, hv, suf, hsuf, Or.inl (by rw [heq])⟩
    · exact ⟨v, hv, suf, hsuf, Or.inr ⟨n, hn, Or.inl (by rw [heq])⟩⟩
    · exact ⟨v, hv, suf, hsuf, Or.inr ⟨n, hn, Or.inr (by rw [heq])⟩⟩
  · rintro ⟨v, hv, suf, hsuf, heq | ⟨n, hn, heq | heq⟩⟩ <;> subst heq
    · exact ⟨v, ⟨v, hv, Or.inl rfl⟩, suf, hsuf, rfl⟩
    · exact ⟨v ++ n, ⟨v, hv, Or.inr (Or.inl ⟨n, hn, rfl⟩)⟩, suf, hsuf, rfl⟩
    · exact ⟨n ++ v, ⟨v, hv, Or.inr (Or.inr ⟨n, hn, rfl⟩)⟩, suf, hsuf, rfl⟩

lemma mem_blockRaw_nums {maxLeet : Int} {nums₁ nums₂ : List String} {b s : String}
    (hn : ∀ n : String, n ∈ nums₁ ↔ n ∈ nums₂) :
    s ∈ blockRaw maxLeet nums₁ b ↔ s ∈ blockRaw maxLeet nums₂ b := by
  rw [mem_blockRaw_iff, mem_blockRaw_iff]
  simp only [hn]

lemma mem_lineBlock_iff {ord : List String → List String} (h : PySetOrder ord)
    {maxLeet : Int} {nums : List String} {b s : String} :
    s ∈ lineBlock ord maxLeet nums b ↔ lenOK s = true ∧ s ∈ blockRaw maxLeet nums b := by
  rw [lineBlock, List.mem_filter, mem_ord h, and_comm]

lemma mem_generate_iff {ord : List String → List String} (h : PySetOrder ord)
    {p : List String} {maxLeet : Int} {c kb : Bool} {y : Int} {s : String} :
    s ∈ generateWordlist ord p maxLeet c kb y ↔
      ((kb = true ∧ s ∈ KEYBOARD_WALKS) ∨
        (∃ b ∈ rawBaseWords p, lenOK s = true ∧ s ∈ blockRaw maxLeet (numbersRaw y) b) ∨
        (c = true ∧ s ∈ KEYBOARD_WALKS)) := by
  have hblock : ∀ b : String, s ∈ lineBlock ord maxLeet (ord (numbersRaw y)) b ↔
      lenOK s = true ∧ s ∈ blockRaw maxLeet (numbersRaw y) b := by
    intro b
    rw [mem_lineBlock_iff h]
    exact and_congr_right fun _ => mem_blockRaw_nums (fun n => mem_ord h)
  have hmid : s ∈ (ord (rawBaseWords p)).flatMap (lineBlock ord maxLeet (ord (numbersRaw y))) ↔
      ∃ b ∈ rawBaseWords p, lenOK s = true ∧ s ∈ blockRaw maxLeet (numbersRaw y) b := by
    rw [List.mem_flatMap]
    constructor
    · rintro ⟨b, hb, hs⟩
      exact ⟨b, (mem_ord h).mp hb, (hblock b).mp hs⟩
    · rintro ⟨b, hb, hs⟩
      exact ⟨b, (mem_ord h).mpr hb, (hblock b).mpr hs⟩
  have hif : ∀ fl : Bool, s ∈ (if fl then KEYBOARD_WALKS else []) ↔
      (fl = true ∧ s ∈ KEYBOARD_WALKS) := by
    intro fl
    cases fl <;> simp
  rw [generateWordlist, List.mem_append, List.mem_append, hmid, hif kb, hif c]
  exact or_assoc

lemma length_of_mem_generate {ord : List String → List String} (h : PySetOrder ord)
    {p : List String} {maxLeet : Int} {c kb : Bool} {y : Int} {s : String}
    (hs : s ∈ generateWordlist ord p maxLeet c kb y) :
    s ∈ KEYBOARD_WALKS ∨ (4 ≤ s.length ∧ s.length ≤ 64) := by
  rcases (mem_generate_iff h).mp hs with ⟨_, h1⟩ | ⟨b, _, hlen, _⟩ | ⟨_, h1⟩
  · exact Or.inl h1
  · right
    rw [lenOK] at hlen
    exact of_decide_eq_true hlen
  · exact Or.inl h1

lemma blockRaw_start {maxLeet : Int} {nums : List String} {b s : String}
    (hs : s ∈ blockRaw maxLeet nums b) :
    (∃ v ∈ leetVariantsList maxLeet b, v.data.isPrefixOf s.data = true) ∨
      (∃ n ∈ nums, n.data.isPrefixOf s.data = true) := by
  rcases mem_blockRaw_iff.mp hs with ⟨v, hv, suf, _, rfl | ⟨n, hn, rfl | rfl⟩⟩
  · refine Or.inl ⟨v, hv, List.isPrefixOf_iff_prefix.mpr ?_⟩
    rw [data_append]
    exact List.prefix_append _ _
  · refine Or.inl ⟨v, hv, List.isPrefixOf_iff_prefix.mpr ?_⟩
    rw [data_append, data_append, List.append_assoc]
    exact List.prefix_append _ _
  · refine Or.inr ⟨n, hn, List.isPrefixOf_iff_prefix.mpr ?_⟩
    rw [data_append, data_append, List.append_assoc]
    exact List.prefix_append _ _

lemma any_digit_of_sub {n s : String} (hsub : ∀ c ∈ n.data, c ∈ s.data)
    (hd : n.data.any Char.isDigit = true) : s.data.any Char.isDigit = true := by
  rw [List.any_eq_true] at hd ⊢
  obtain ⟨c, hc, hcd⟩ := hd
  exact ⟨c, hsub c hc, hcd⟩

lemma comboList_perm {nums₁ nums₂ : List String} (h : nums₁.Perm nums₂) (w : String) :
    (comboList nums₁ w).Perm (comboList nums₂ w) := by
  rw [comboList, comboList]
  exact ((h.map _).append (h.map _)).cons w

lemma blockRaw_perm {maxLeet : Int} {nums₁ nums₂ : List String} (h : nums₁.Perm nums₂)
    (b : String) : (blockRaw maxLeet nums₁ b).Perm (blockRaw maxLeet nums₂ b) := by
  rw [blockRaw, blockRaw, allCombos, allCombos]
  exact (List.Perm.flatMap_left _ (fun v _ => comboList_perm h v)).flatMap_right _

lemma lineBlock_perm {ord₁ ord₂ : List String → List String} (h1 : PySetOrder ord₁)
    (h2 : PySetOrder ord₂) {maxLeet : Int} {nums₁ nums₂ : List String}
    (hn : nums₁.Perm nums₂) (b : String) :
    (lineBlock ord₁ maxLeet nums₁ b).Perm (lineBlock ord₂ maxLeet nums₂ b) := by
  rw [lineBlock, lineBlock]
  exact (((h1 _).trans ((blockRaw_perm hn b).dedup)).trans ((h2 _).symm)).filter _

lemma generate_perm {ord₁ ord₂ : List String → List String} (h1 : PySetOrder ord₁)
    (h2 : PySetOrder ord₂) (p : List String) (maxLeet : Int) (c kb : Bool) (y : Int) :
    (generateWordlist ord₁ p maxLeet c kb y).Perm (generateWordlist ord₂ p maxLeet c kb y) := by
  rw [generateWordlist, generateWordlist]
  refine List.Perm.append (List.Perm.append (List.Perm.refl _) ?_) (List.Perm.refl _)
  have hbase : (ord₁ (rawBaseWords p)).Perm (ord₂ (rawBaseWords p)) :=
    (h1 _).trans (h2 _).symm
  have hnums : (ord₁ (numbersRaw y)).Perm (ord₂ (numbersRaw y)) :=
    (h1 _).trans (h2 _).symm
  exact (hbase.flatMap_right _).trans
    (List.Perm.flatMap_left _ (fun b _ => lineBlock_perm h1 h2 hnums b))

end PasswordTool

namespace PasswordTool

lemma generate_moveFront_head {t : String}
    (hmem : t ∈ blockRaw 0 (moveFront t (numbersRaw 2024)) "jane")
    (hlen : lenOK t = true)
    (hbase : moveFront t (rawBaseWords ["jane"]) = ["jane", "Jane"]) :
    ∃ rest : List String,
      generateWordlist (moveFront t) ["jane"] 0 false false 2024 = t :: rest := by
  have hline : lineBlock (moveFront t) 0 (moveFront t (numbersRaw 2024)) "jane" =
      t :: ((blockRaw 0 (moveFront t (numbersRaw 2024)) "jane").dedup.erase t).filter lenOK := by
    rw [lineBlock, moveFront, if_pos (List.mem_dedup.mpr hmem), List.filter_cons_of_pos hlen]
  refine ⟨((blockRaw 0 (moveFront t (numbersRaw 2024)) "jane").dedup.erase t).filter lenOK ++
    lineBlock (moveFront t) 0 (moveFront t (numbersRaw 2024)) "Jane", ?_⟩
  rw [generateWordlist, hbase, List.flatMap_cons, List.flatMap_cons, List.flatMap_nil, hline]
  simp

lemma jane_mem_blockRaw :
    "jane" ∈ blockRaw 0 (moveFront "jane" (numbersRaw 2024)) "jane" :=
  mem_blockRaw_iff.mpr ⟨"jane", by decide, "", by decide, Or.inl (by decide)⟩

lemma jane2014_mem_blockRaw :
    "jane2014" ∈ blockRaw 0 (moveFront "jane2014" (numbersRaw 2024)) "jane" :=
  mem_blockRaw_iff.mpr ⟨"jane", by decide, "", by decide,
    Or.inr ⟨"2014", (mem_ord (pySetOrder_moveFront "jane2014")).mpr (by decide),
      Or.inl (by decide)⟩⟩

/-- C2 as stated is false: the file content depends on the set-iteration
orders the interpreter happened to use, not only on profile,
configuration and date.  Two valid iteration orders of the same sets give
files that start with different lines for the profile `["jane"]`. -/
theorem c2_determinism_counterexample : ¬ deterministicOutput := by
  intro hdet
  obtain ⟨r₁, e₁⟩ := generate_moveFront_head jane_mem_blockRaw (by decide) (by decide)
  obtain ⟨r₂, e₂⟩ := generate_moveFront_head jane2014_mem_blockRaw (by decide) (by decide)
  have heq := hdet (moveFront "jane") (moveFront "jane2014") ["jane"] 0 false false 2024
    (pySetOrder_moveFront "jane") (pySetOrder_moveFront "jane2014")
  rw [e₁, e₂] at heq
  injection heq with h1 _
  exact absurd h1 (by decide)

/-- C2 amended: for identical profile, configuration and date, two runs
produce the same multiset of lines (the files are permutations of each
other); byte-identical files are guaranteed only when the two runs use
the same set-iteration order. -/
theorem c2_determinism_amended (ord₁ ord₂ : List String → List String)
    (h1 : PySetOrder ord₁) (h2 : PySetOrder ord₂) (p : List String) (maxLeet : Int)
    (c kb : Bool) (y : Int) :
    (generateWordlist ord₁ p maxLeet c kb y).Perm (generateWordlist ord₂ p maxLeet c kb y) :=
  generate_perm h1 h2 p maxLeet c kb y

theorem c2_determinism_amended_witness :
    (generateWordlist List.dedup pJane 0 false false 2024).Perm
      (generateWordlist List.dedup pJane 0 false false 2024) :=
  c2_determinism_amended List.dedup List.dedup pySetOrder_dedup pySetOrder_dedup
    pJane 0 false false 2024

/-- C3: with every profile field empty, the run fails with the
invalid-profile error before the generator is constructed, so no output
file is created or truncated. -/
theorem c3_empty_profile (ord : List String → List String) (p : List String)
    (maxLeet : Int) (c kb : Bool) (y : Int) (h : ∀ v ∈ p, v = "") :
    cliRun ord p maxLeet c kb y =
      Except.error "At least one user data field required for wordlist generation" := by
  have hany : p.any (fun v => v ≠ "") = false := by
    rw [List.any_eq_false]
    intro v hv
    simpa using h v hv
  rw [cliRun, hany]
  rfl

theorem c3_empty_profile_witness :
    cliRun List.dedup ["", "", "", "", "", ""] 1 true true 2024 =
      Except.error "At least one user data field required for wordlist generation" :=
  c3_empty_profile List.dedup ["", "", "", "", "", ""] 1 true true 2024 (by decide)

/-- C4: every line of the output file either comes from the keyboard-walk
and common-password seed list (which bypasses the filter) or has length
in `[4, 64]`. -/
theorem c4_length_filter (ord : List String → List String) (h : PySetOrder ord)
    (p : List String) (maxLeet : Int) (c kb : Bool) (y : Int) (s : String)
    (hs : s ∈ generateWordlist ord p maxLeet c kb y) :
    s ∈ KEYBOARD_WALKS ∨ (4 ≤ s.length ∧ s.length ≤ 64) :=
  length_of_mem_generate h hs

theorem c4_length_filter_witness :
    "qwerty" ∈ generateWordlist List.dedup [] 0 true true 2024 ∧
      ("qwerty" ∈ KEYBOARD_WALKS ∨ (4 ≤ "qwerty".length ∧ "qwerty".length ≤ 64)) :=
  ⟨by decide, c4_length_filter List.dedup pySetOrder_dedup [] 0 true true 2024 "qwerty"
    (by decide)⟩

/-- C8 as stated is false: the base words are handed over as `list(words)`
of a Python set with no sort; the canonical linearization for the Jane/Rex
profile starts `jane, Jane, ...`, which is not lexicographically sorted. -/
theorem c8_sorted_counterexample : ¬ baseWordsSorted := by
  intro hall
  have hs := hall List.dedup pJane pySetOrder_dedup
  rw [show List.dedup (rawBaseWords pJane) =
      ["jane", "Jane", "rex", "Rex", "RexJane", "JaneRex", "Jane.Rex", "Jane_Rex"] from
    by decide] at hs
  have h1 : ("jane" : String) ≤ "Jane" := (List.sorted_cons.mp hs).1 "Jane" (by decide)
  have h2 : ("Jane" : String) < "jane" := String.lt_iff_toList_lt.mpr (by decide)
  exact absurd h1 (not_le.mpr h2)

/-- C8 amended: the list handed to further processing contains exactly the
deduplicated base-word set (no duplicates, same membership), but in an
unspecified set-iteration order, not sorted. -/
theorem c8_base_words_amended (p : List String) (ord : List String → List String)
    (h : PySetOrder ord) :
    (ord (rawBaseWords p)).Nodup ∧
      ∀ s : String, s ∈ ord (rawBaseWords p) ↔ s ∈ rawBaseWords p :=
  ⟨(h (rawBaseWords p)).nodup_iff.mpr (List.nodup_dedup _), fun _ => mem_ord h⟩

theorem c8_base_words_amended_witness :
    (List.dedup (rawBaseWords pJane)).Nodup ∧
      ("jane" ∈ List.dedup (rawBaseWords pJane) ↔ "jane" ∈ rawBaseWords pJane) :=
  ⟨(c8_base_words_amended pJane List.dedup pySetOrder_dedup).1,
    (c8_base_words_amended pJane List.dedup pySetOrder_dedup).2 "jane"⟩

end PasswordTool

namespace PasswordTool

lemma janeRex_not_mem {ord : List String → List String} (h : PySetOrder ord) :
    "janeRex" ∉ generateWordlist ord pJane 0 false false 2024 := by
  intro hmem
  rcases (mem_generate_iff h).mp hmem with ⟨hkb, _⟩ | ⟨b, hb, _, hblock⟩ | ⟨hc, _⟩
  · exact Bool.noConfusion hkb
  · rcases mem_blockRaw_iff.mp hblock with ⟨v, hv, suf, hsuf, heq | ⟨n, hn, heq | heq⟩⟩
    · have hfact : ∀ b ∈ rawBaseWords pJane, ∀ v ∈ leetVariantsList 0 b,
          ∀ suf ∈ COMMON_SUFFIXES, v ++ suf ≠ "janeRex" := by decide
      exact hfact b hb v hv suf hsuf heq.symm
    · have hdig : ∀ n ∈ numbersRaw 2024, n.data.any Char.isDigit = true := by decide
      have hcontra : "janeRex".data.any Char.isDigit = true := by
        refine any_digit_of_sub ?_ (hdig n hn)
        intro ch hch
        rw [heq, data_append, data_append]
        exact List.mem_append_left _ (List.mem_append_right _ hch)
      exact absurd hcontra (by decide)
    · have hdig : ∀ n ∈ numbersRaw 2024, n.data.any Char.isDigit = true := by decide
      have hcontra : "janeRex".data.any Char.isDigit = true := by
        refine any_digit_of_sub ?_ (hdig n hn)
        intro ch hch
        rw [heq, data_append, data_append]
        exact List.mem_append_left _ (List.mem_append_left _ hch)
      exact absurd hcontra (by decide)
  · exact Bool.noConfusion hc

lemma j4ne_not_mem {ord : List String → List String} (h : PySetOrder ord) :
    "j4ne" ∉ generateWordlist ord pJane 0 false false 2024 := by
  intro hmem
  rcases (mem_generate_iff h).mp hmem with ⟨hkb, _⟩ | ⟨b, hb, _, hblock⟩ | ⟨hc, _⟩
  · exact Bool.noConfusion hkb
  · rcases blockRaw_start hblock with ⟨v, hv, hpre⟩ | ⟨n, hn, hpre⟩
    · have hfact : ∀ b ∈ rawBaseWords pJane, ∀ v ∈ leetVariantsList 0 b,
          v.data.isPrefixOf "j4ne".data = false := by decide
      rw [hfact b hb v hv] at hpre
      exact Bool.noConfusion hpre
    · have hfact : ∀ n ∈ numbersRaw 2024, n.data.isPrefixOf "j4ne".data = false := by decide
      rw [hfact n hn] at hpre
      exact Bool.noConfusion hpre
  · exact Bool.noConfusion hc

lemma short_not_mem {ord : List String → List String} (h : PySetOrder ord) {s : String}
    (hwalk : s ∉ KEYBOARD_WALKS) (hshort : s.length < 4) :
    s ∉ generateWordlist ord pJane 0 false false 2024 := by
  intro hmem
  rcases length_of_mem_generate h hmem with hw | ⟨hlen, _⟩
  · exact hwalk hw
  · omega

lemma mem_generate_block {ord : List String → List String} (h : PySetOrder ord)
    (b : String) {s : String} (hb : b ∈ rawBaseWords pJane) (hs : lenOK s = true)
    (hform : s ∈ blockRaw 0 (numbersRaw 2024) b) :
    s ∈ generateWordlist ord pJane 0 false false 2024 :=
  (mem_generate_iff h).mpr (Or.inr (Or.inl ⟨b, hb, hs, hform⟩))

/-- C1 as stated is false: the scenario output never contains the line
`janeRex`.  Pair concatenations are built from the raw field values
(`Jane`, `Rex`) and the only case variants taken of a base word are its
lowercase and capitalized forms, so `JaneRex` becomes `janerex` or
`Janerex`, never `janeRex`;
`janeRex` passes the `[4, 64]` length filter, so the filter proviso does
not excuse its absence. -/
theorem c1_scenario_counterexample :
    "janeRex" ∉ generateWordlist List.dedup pJane 0 false false 2024 :=
  janeRex_not_mem pySetOrder_dedup

/-- C1 amended: for the profile `{first: "Jane", pet: "Rex"}` with
`max_leet = 0`, both inclusion flags off and year 2024, the output
contains `jane`, `Jane`, `janerex`, `rexjane`, `Janerex`, `Rexjane`,
`jane.rex` and `jane_rex`; `rex` and `Rex` (length 3) are removed by the
`[4, 64]` length filter; no leet variant such as `j4ne` appears; and
`janeRex` is not produced (its role is taken by `Janerex`). -/
theorem c1_scenario_amended (ord : List String → List String) (h : PySetOrder ord) :
    "jane" ∈ generateWordlist ord pJane 0 false false 2024 ∧
      "Jane" ∈ generateWordlist ord pJane 0 false false 2024 ∧
      "janerex" ∈ generateWordlist ord pJane 0 false false 2024 ∧
      "rexjane" ∈ generateWordlist ord pJane 0 false false 2024 ∧
      "Janerex" ∈ generateWordlist ord pJane 0 false false 2024 ∧
      "Rexjane" ∈ generateWordlist ord pJane 0 false false 2024 ∧
      "jane.rex" ∈ generateWordlist ord pJane 0 false false 2024 ∧
      "jane_rex" ∈ generateWordlist ord pJane 0 false false 2024 ∧
      "rex" ∉ generateWordlist ord pJane 0 false false 2024 ∧
      "Rex" ∉ generateWordlist ord pJane 0 false false 2024 ∧
      "j4ne" ∉ generateWordlist ord pJane 0 false false 2024 ∧
      "janeRex" ∉ generateWordlist ord pJane 0 false false 2024 := by
  refine ⟨?_, ?_, ?_, ?_, ?_, ?_, ?_, ?_, ?_, ?_, ?_, ?_⟩
  · exact mem_generate_block h "jane" (by decide) (by decide)
      (mem_blockRaw_iff.mpr ⟨"jane", by decide, "", by decide, Or.inl (by decide)⟩)
  · exact mem_generate_block h "jane" (by decide) (by decide)
      (mem_blockRaw_iff.mpr ⟨"Jane", by decide, "", by decide, Or.inl (by decide)⟩)
  · exact mem_generate_block h "JaneRex" (by decide) (by decide)
      (mem_blockRaw_iff.mpr ⟨"janerex", by decide, "", by decide, Or.inl (by decide)⟩)
  · exact mem_generate_block h "RexJane" (by decide) (by decide)
      (mem_blockRaw_iff.mpr ⟨"rexjane", by decide, "", by decide, Or.inl (by decide)⟩)
  · exact mem_generate_block h "JaneRex" (by decide) (by decide)
      (mem_blockRaw_iff.mpr ⟨"Janerex", by decide, "", by decide, Or.inl (by decide)⟩)
  · exact mem_generate_block h "RexJane" (by decide) (by decide)
      (mem_blockRaw_iff.mpr ⟨"Rexjane", by decide, "", by decide, Or.inl (by decide)⟩)
  · exact mem_generate_block h "Jane.Rex" (by decide) (by decide)
      (mem_blockRaw_iff.mpr ⟨"jane.rex", by decide, "", by decide, Or.inl (by decide)⟩)
  · exact mem_generate_block h "Jane_Rex" (by decide) (by decide)
      (mem_blockRaw_iff.mpr ⟨"jane_rex", by decide, "", by decide, Or.inl (by decide)⟩)
  · exact short_not_mem h (by decide) (by decide)
  · exact short_not_mem h (by decide) (by decide)
  · exact j4ne_not_mem h
  · exact janeRex_not_mem h

theorem c1_scenario_amended_witness :
    "jane" ∈ generateWordlist List.dedup pJane 0 false false 2024 ∧
      "Jane" ∈ generateWordlist List.dedup pJane 0 false false 2024 ∧
      "janerex" ∈ generateWordlist List.dedup pJane 0 false false 2024 ∧
      "rexjane" ∈ generateWordlist List.dedup pJane 0 false false 2024 ∧
      "Janerex" ∈ generateWordlist List.dedup pJane 0 false false 2024 ∧
      "Rexjane" ∈ generateWordlist List.dedup pJane 0 false false 2024 ∧
      "jane.rex" ∈ generateWordlist List.dedup pJane 0 false false 2024 ∧
      "jane_rex" ∈ generateWordlist List.dedup pJane 0 false false 2024 ∧
      "rex" ∉ generateWordlist List.dedup pJane 0 false false 2024 ∧
      "Rex" ∉ generateWordlist List.dedup pJane 0 false false 2024 ∧
      "j4ne" ∉ generateWordlist List.dedup pJane 0 false false 2024 ∧
      "janeRex" ∉ generateWordlist List.dedup pJane 0 false false 2024 :=
  c1_scenario_amended List.dedup pySetOrder_dedup

end PasswordTool
